import Mathlib

/-!
Verification development for the graviton-repo sources
(`graviton_problematic.c`, `x86_specific.c`) and for the static
source-compatibility scanner core described by the accompanying design
document (Scanner, Pattern Registry, Rule Matcher, Aggregator).

Part 1 embeds the C functions that the claims mention directly.  Machine
integers are `Nat` with explicit `% 2^w` where overflow matters; float
lanes are modelled as `Rat` (the claims under scrutiny concern control
flow and pointer validity, not rounding); pointers are `Ptr` with an
explicit null case, and memory accesses are total functions returning
`Except ExecError _` so that the NULL-dereference branch is explicit.

Part 2 models the scanner core.  That component is described only by the
design document (no implementation ships in the repository), so its
definitions are modelled from the spec, as their doc comments state.
-/

namespace Grav

/-- A C pointer: either NULL or a byte/element address. -/
inductive Ptr where
  | null
  | addr (base : Nat)
deriving DecidableEq, Repr

/-- Runtime faults of the embedded C fragments. -/
inductive ExecError where
  | nullDeref
deriving DecidableEq, Repr

/-- Memory as a total map from addresses to float-lane values (floats
modelled as rationals; the claims do not depend on rounding). -/
abbrev Heap := Nat → Rat

/-- Load `w` consecutive lanes starting at `p + off`; the x86
`_mm_load_ps` / `_mm256_load_ps` access, which faults on NULL. -/
def loadVec (h : Heap) (p : Ptr) (off w : Nat) : Except ExecError (List Rat) :=
  match p with
  | .null => .error .nullDeref
  | .addr b => .ok ((List.range w).map fun k => h (b + off + k))

/-- Store the lanes `v` starting at `p + off`; the x86 `_mm_store_ps` /
`_mm256_store_ps` access, which faults on NULL. -/
def storeVec (h : Heap) (p : Ptr) (off : Nat) (v : List Rat) : Except ExecError Heap :=
  match p with
  | .null => .error .nullDeref
  | .addr b => .ok (fun a => if b + off ≤ a ∧ a < b + off + v.length then v.getD (a - (b + off)) 0 else h a)

/-- Lane-wise product: `_mm_mul_ps`. -/
def mulVec (u v : List Rat) : List Rat := List.zipWith (· * ·) u v

/-- Lane-wise sum: `_mm256_add_ps`. -/
def addVec (u v : List Rat) : List Rat := List.zipWith (· + ·) u v

/-- The loop of `sse2_matrix_multiply`: `for (i = 0; i < n; i += 4)`
loading 4 lanes from `A[i]` and `B[i]`, multiplying, storing to `C[i]`. -/
def sse2_loop (A B C : Ptr) (n : Int) (h : Heap) (i : Int) : Except ExecError Heap :=
  if hlt : i < n then do
    let a ← loadVec h A i.toNat 4
    let b ← loadVec h B i.toNat 4
    let result := mulVec a b
    let h' ← storeVec h C i.toNat result
    sse2_loop A B C n h' (i + 4)
  else .ok h
termination_by (n - i).toNat
decreasing_by omega

/-- `sse2_matrix_multiply(float* A, float* B, float* C, int n)` from
graviton_problematic.c. -/
def sse2_matrix_multiply (A B C : Ptr) (n : Int) (h : Heap) : Except ExecError Heap :=
  sse2_loop A B C n h 0

/-- The loop of `avx2_vector_add`: `for (i = 0; i < n; i += 8)` loading
8 lanes from `a[i]` and `b[i]`, adding, then storing through `result`
(the source stores to `&result`, i.e. not to `&result[i]`; the store
target does not matter for the claims, which fault on the loads). -/
def avx2_loop (a b result : Ptr) (n : Int) (h : Heap) (i : Int) : Except ExecError Heap :=
  if hlt : i < n then do
    let va ← loadVec h a i.toNat 8
    let vb ← loadVec h b i.toNat 8
    let vr := addVec va vb
    let h' ← storeVec h result 0 vr
    avx2_loop a b result n h' (i + 8)
  else .ok h
termination_by (n - i).toNat
decreasing_by omega

/-- `avx2_vector_add(float* a, float* b, float* result, int n)` from
graviton_problematic.c. -/
def avx2_vector_add (a b result : Ptr) (n : Int) (h : Heap) : Except ExecError Heap :=
  avx2_loop a b result n h 0

/-- Modelled from the spec: zlib's `compress(dest, destLen, source,
sourceLen)` is an external library routine, not part of this repository.
It is modelled minimally by the pointer accesses it always performs:
it reads and writes `*destLen` (the output capacity), writes a stream
header through `dest` even for empty input, and reads `sourceLen`
bytes through `source`; each access faults on NULL. -/
def compress_zlib (h : Heap) (dest destLen source : Ptr) (sourceLen : Nat) :
    Except ExecError Heap :=
  match destLen with
  | .null => .error .nullDeref
  | .addr _ =>
    match dest with
    | .null => .error .nullDeref
    | .addr _ =>
      if sourceLen ≠ 0 ∧ source = .null then .error .nullDeref else .ok h

/-- `compress_old_zlib(input, input_len, output, output_len)` from
graviton_problematic.c: calls `compress(output, output_len, input, input_len)`. -/
def compress_old_zlib (input : Ptr) (input_len : Nat) (output output_len : Ptr)
    (h : Heap) : Except ExecError Heap :=
  compress_zlib h output output_len input input_len

/-- `get_cycles_x86()` from graviton_problematic.c, as a function of the
32-bit register halves written by `rdtsc`: returns
`((unsigned long long)hi << 32) | lo`. -/
def get_cycles_x86 (lo hi : Nat) : Nat :=
  ((hi % 2 ^ 32) <<< 32) ||| (lo % 2 ^ 32)

/-- `rdtsc()` from x86_specific.c, as a function of the 32-bit register
halves written by the instruction: returns `((uint64_t)high << 32) | low`. -/
def rdtsc (low high : Nat) : Nat :=
  ((high % 2 ^ 32) <<< 32) ||| (low % 2 ^ 32)

/-- `read_pmc(counter)` from x86_specific.c, as a function of the counter
selector and the 32-bit register halves written by `rdpmc`: returns
`((uint64_t)high << 32) | low`. -/
def read_pmc (counter : Nat) (low high : Nat) : Nat :=
  ((high % 2 ^ 32) <<< 32) ||| (low % 2 ^ 32)

/-- `write_callback(void* contents, size_t size, size_t nmemb, void* userp)`
from graviton_problematic.c: `return size * nmemb;` in `size_t`
(64-bit) arithmetic; the pointer arguments are never read. -/
def write_callback (contents : Ptr) (size nmemb : Nat) (userp : Ptr) : Nat :=
  (size * nmemb) % 2 ^ 64

end Grav

namespace Scan

/-- Modelled from the spec: the Token kinds of the Lexical Scanner's
output (§3): identifier, string-literal, numeric-literal, punctuation,
preprocessor-directive, asm-mnemonic. -/
inductive TokenKind where
  | identifier
  | stringLit
  | numericLit
  | punctuation
  | preprocessor
  | asmMnemonic
deriving DecidableEq, Repr

/-- Modelled from the spec: a Token is {kind, text, line, column} (§3),
immutable once produced. -/
structure Token where
  kind : TokenKind
  text : String
  line : Nat
  column : Nat
deriving DecidableEq, Repr

/-- A source position; columns and lines are 1-based. -/
structure Pos where
  line : Nat
  column : Nat
deriving DecidableEq, Repr

/-- Advance a position over one character. -/
def Pos.adv (p : Pos) (c : Char) : Pos :=
  if c = '\n' then ⟨p.line + 1, 1⟩ else ⟨p.line, p.column + 1⟩

/-- Advance a position over a list of characters. -/
def Pos.advMany (p : Pos) (cs : List Char) : Pos := cs.foldl Pos.adv p

/-- Characters that may start a C identifier. -/
def isIdentStart (c : Char) : Bool := c.isAlpha || c == '_'

/-- Characters that may continue a C identifier. -/
def isIdentChar (c : Char) : Bool := c.isAlphanum || c == '_'

/-- Split a block comment body at the closing `*/`: returns the consumed
characters (closing delimiter included) and the remainder. -/
def spanBlockComment : List Char → List Char × List Char
  | [] => ([], [])
  | '*' :: '/' :: rest => (['*', '/'], rest)
  | c :: rest =>
    let s := spanBlockComment rest
    (c :: s.1, s.2)

/-- Split a string/char literal body at the unescaped closing delimiter:
returns the consumed characters (closing delimiter included) and the
remainder. -/
def spanLit (q : Char) : List Char → List Char × List Char
  | [] => ([], [])
  | '\\' :: c :: rest =>
    let s := spanLit q rest
    ('\\' :: c :: s.1, s.2)
  | c :: rest =>
    if c = q then ([q], rest)
    else
      let s := spanLit q rest
      (c :: s.1, s.2)

/-- The literal body without its closing delimiter. -/
def litBody (q : Char) (consumed : List Char) : List Char :=
  if consumed.getLast? = some q then consumed.dropLast else consumed

/-- Split a character list into its maximal runs of identifier
characters (used to pull instruction mnemonics out of an inline-asm
template string). -/
def identRuns (cur : List Char) : List Char → List (List Char)
  | [] => if cur.isEmpty then [] else [cur.reverse]
  | c :: rest =>
    if isIdentChar c then identRuns (c :: cur) rest
    else if cur.isEmpty then identRuns [] rest
    else cur.reverse :: identRuns [] rest

/-- Modelled from the spec: the mnemonic tokens of an inline-asm template
string (§4.1) — the identifier-shaped words of the template (operand
references such as `%1` have no identifier head and are dropped). -/
def asmMnemonics (body : List Char) (p : Pos) : List Token :=
  ((identRuns [] body).filter fun w => match w with
    | [] => false
    | c :: _ => isIdentStart c).map
    fun w => ⟨TokenKind.asmMnemonic, w.asString, p.line, p.column⟩

/-- Modelled from the spec: the Lexical Scanner (§4.1).  Tokenizes C
source text: skips whitespace and block/line comments, emits string/char
literal bodies as string-literal tokens (so identifiers inside them are
not flagged as code), recognizes `#include <...>` / `#include "..."` as
preprocessor-directive tokens carrying the included path as text, and
after an `asm` / `__asm__` keyword treats the next string literal as the
inline-assembly template, emitting its mnemonics as asm-mnemonic tokens.
`fuel` bounds recursion; each step consumes at least one character, so
`fuel = input length` never cuts the scan short. -/
def tokenizeAux : Nat → Pos → Bool → List Char → List Token
  | 0, _, _, _ => []
  | _ + 1, _, _, [] => []
  | fuel + 1, p, inAsm, '/' :: '/' :: rest =>
    let body := rest.takeWhile (fun c => c ≠ '\n')
    tokenizeAux fuel (p.advMany ('/' :: '/' :: body)) inAsm (rest.dropWhile (fun c => c ≠ '\n'))
  | fuel + 1, p, inAsm, '/' :: '*' :: rest =>
    let s := spanBlockComment rest
    tokenizeAux fuel (p.advMany ('/' :: '*' :: s.1)) inAsm s.2
  | fuel + 1, p, inAsm, '"' :: rest =>
    let s := spanLit '"' rest
    let body := litBody '"' s.1
    let toks :=
      if inAsm then asmMnemonics body p
      else [⟨TokenKind.stringLit, body.asString, p.line, p.column⟩]
    toks ++ tokenizeAux fuel (p.advMany ('"' :: s.1)) false s.2
  | fuel + 1, p, inAsm, '\'' :: rest =>
    let s := spanLit '\'' rest
    ⟨TokenKind.stringLit, (litBody '\'' s.1).asString, p.line, p.column⟩
      :: tokenizeAux fuel (p.advMany ('\'' :: s.1)) inAsm s.2
  | fuel + 1, p, inAsm, '#' :: rest =>
    let sp := rest.span fun c => c == ' ' || c == '\t'
    let dir := sp.2.span isIdentChar
    if dir.1.asString = "include" then
      let sp2 := dir.2.span fun c => c == ' ' || c == '\t'
      match sp2.2 with
      | '<' :: r4 =>
        let path := r4.span fun c => c != '>' && c != '\n'
        let consumed := '#' :: sp.1 ++ dir.1 ++ sp2.1 ++ '<' :: path.1
        ⟨TokenKind.preprocessor, path.1.asString, p.line, p.column⟩ ::
          (match path.2 with
           | '>' :: r6 => tokenizeAux fuel (p.advMany (consumed ++ ['>'])) inAsm r6
           | r5 => tokenizeAux fuel (p.advMany consumed) inAsm r5)
      | '"' :: r4 =>
        let path := r4.span fun c => c != '"' && c != '\n'
        let consumed := '#' :: sp.1 ++ dir.1 ++ sp2.1 ++ '"' :: path.1
        ⟨TokenKind.preprocessor, path.1.asString, p.line, p.column⟩ ::
          (match path.2 with
           | '"' :: r6 => tokenizeAux fuel (p.advMany (consumed ++ ['"'])) inAsm r6
           | r5 => tokenizeAux fuel (p.advMany consumed) inAsm r5)
      | _ =>
        tokenizeAux fuel (p.advMany ('#' :: sp.1 ++ dir.1)) inAsm dir.2
    else
      let ln := rest.span fun c => c != '\n'
      tokenizeAux fuel (p.advMany ('#' :: ln.1)) inAsm ln.2
  | fuel + 1, p, inAsm, c :: rest =>
    if c.isWhitespace then tokenizeAux fuel (p.adv c) inAsm rest
    else if isIdentStart c then
      let w := rest.span isIdentChar
      let word := (c :: w.1).asString
      let inAsm' := inAsm || word = "asm" || word = "__asm__"
      ⟨TokenKind.identifier, word, p.line, p.column⟩
        :: tokenizeAux fuel (p.advMany (c :: w.1)) inAsm' w.2
    else if c.isDigit then
      let w := rest.span fun d => d.isAlphanum || d == '.'
      ⟨TokenKind.numericLit, (c :: w.1).asString, p.line, p.column⟩
        :: tokenizeAux fuel (p.advMany (c :: w.1)) inAsm w.2
    else
      let inAsm' := if c = ')' then false else inAsm
      ⟨TokenKind.punctuation, String.singleton c, p.line, p.column⟩
        :: tokenizeAux fuel (p.adv c) inAsm' rest

/-- Modelled from the spec: scanning one file's bytes into its token
stream (§4.1). -/
def tokenize (src : String) : List Token :=
  tokenizeAux src.toList.length ⟨1, 1⟩ false src.toList

/-- Modelled from the spec: severity of a Finding (§3):
info / warning / blocker. -/
inductive Severity where
  | info
  | warning
  | blocker
deriving DecidableEq, Repr

/-- Modelled from the spec: a Rule is {id, category, matched-text,
severity, remediation-hint} (§3). -/
structure Rule where
  id : Nat
  category : String
  pattern : String
  severity : Severity
  hint : String
deriving DecidableEq, Repr

/-- Modelled from the spec: the immutable Pattern Registry — the rule
catalog loaded once at startup (§4.2). -/
structure Registry where
  rules : List Rule
deriving DecidableEq, Repr

/-- Modelled from the spec: the fatal configuration errors (§7). -/
inductive ConfigError where
  | duplicateRule
deriving DecidableEq, Repr

/-- Two rules collide when they share both matched-text and category. -/
def samePatCat (r s : Rule) : Bool :=
  r.pattern == s.pattern && r.category == s.category

/-- Whether some pair of rules in the list shares (matched-text, category). -/
def hasDuplicate : List Rule → Bool
  | [] => false
  | r :: rs => rs.any (samePatCat r) || hasDuplicate rs

/-- Modelled from the spec: Registry loading (§4.2) — rejects duplicate
(matched-text, category) pairs as a fatal ConfigError at startup,
before any file is scanned. -/
def loadRegistry (rules : List Rule) : Except ConfigError Registry :=
  if hasDuplicate rules then .error .duplicateRule else .ok ⟨rules⟩

/-- Modelled from the spec: a Finding is {rule-id, file-path, line,
column, matched-text, severity} (§3). -/
structure Finding where
  ruleId : Nat
  filePath : String
  line : Nat
  column : Nat
  matchedText : String
  severity : Severity
deriving DecidableEq, Repr

/-- A header-targeting rule category (e.g. "x86-intrinsic-header"). -/
def isHeaderCategory (cat : String) : Bool :=
  "header".toList.isSuffixOf cat.toList

/-- Modelled from the spec: kind narrowing of the Rule Matcher (§4.3) —
header rules match only preprocessor-directive tokens; intrinsic and
mnemonic rules match only identifier or asm-mnemonic tokens. -/
def kindOkFor (r : Rule) (k : TokenKind) : Bool :=
  if isHeaderCategory r.category then k == .preprocessor
  else k == .identifier || k == .asmMnemonic

/-- A rule matches a token when the kind is admissible and the token's
text equals the rule's matched-text. -/
def ruleMatches (r : Rule) (t : Token) : Bool :=
  kindOkFor r t.kind && r.pattern == t.text

/-- Rule order: by rule-id ascending (§4.3 tie-breaking). -/
def ruleLe (r s : Rule) : Bool := decide (r.id ≤ s.id)

/-- Insert into a `le`-sorted list, keeping it sorted (stable). -/
def insertBy (le : α → α → Bool) (a : α) : List α → List α
  | [] => [a]
  | b :: l => if le a b then a :: b :: l else b :: insertBy le a l

/-- Stable insertion sort by the boolean relation `le`. -/
def sortBy (le : α → α → Bool) : List α → List α
  | [] => []
  | a :: l => insertBy le a (sortBy le l)

/-- Modelled from the spec: the Rule Matcher on one token (§4.3) — one
Finding per matching Registry rule, carrying the token's location and
text, ordered by rule-id ascending. -/
def matchToken (reg : Registry) (path : String) (t : Token) : List Finding :=
  (sortBy ruleLe (reg.rules.filter fun r => ruleMatches r t)).map
    fun r => ⟨r.id, path, t.line, t.column, t.text, r.severity⟩

/-- Modelled from the spec: the Rule Matcher over one file's token
stream (§4.3). -/
def matchFile (reg : Registry) (path : String) (toks : List Token) : List Finding :=
  toks.flatMap (matchToken reg path)

/-- Counts-by-severity of a ScanSummary (§3). -/
structure SevCounts where
  info : Nat
  warning : Nat
  blocker : Nat
deriving DecidableEq, Repr

/-- Look up one severity's count. -/
def SevCounts.get (c : SevCounts) : Severity → Nat
  | .info => c.info
  | .warning => c.warning
  | .blocker => c.blocker

/-- Increment one severity's count. -/
def SevCounts.bump (c : SevCounts) : Severity → SevCounts
  | .info => { c with info := c.info + 1 }
  | .warning => { c with warning := c.warning + 1 }
  | .blocker => { c with blocker := c.blocker + 1 }

/-- The deduplication key of the Aggregator (§4.4): (rule-id, line). -/
def dedupKey (f : Finding) : Nat × Nat := (f.ruleId, f.line)

/-- Drop every Finding whose (rule-id, line) key was already seen. -/
def dedupAux (seen : List (Nat × Nat)) : List Finding → List Finding
  | [] => []
  | f :: fs =>
    if dedupKey f ∈ seen then dedupAux seen fs
    else f :: dedupAux (dedupKey f :: seen) fs

/-- Modelled from the spec: the Aggregator's within-file deduplication
(§4.4) — two Findings with identical (rule-id, line) collapse to one
(the first). -/
def dedupFindings (fs : List Finding) : List Finding := dedupAux [] fs

/-- Finding order inside one file's entry: by (line, column) ascending (§3). -/
def posLe (f g : Finding) : Bool :=
  if f.line = g.line then decide (f.column ≤ g.column) else decide (f.line < g.line)

/-- Modelled from the spec: the Aggregator's state — Findings keyed by
file path, with incrementally maintained counts-by-severity (§4.4, §3). -/
structure AggState where
  perFile : List (String × List Finding)
  counts : SevCounts
deriving DecidableEq, Repr

/-- The Aggregator's empty initial state. -/
def initState : AggState := ⟨[], ⟨0, 0, 0⟩⟩

/-- Fold one entry's Findings into the running severity counts. -/
def addCounts (c : SevCounts) (fs : List Finding) : SevCounts :=
  fs.foldl (fun c f => c.bump f.severity) c

/-- The Aggregator entry stored for one file: its Findings deduplicated
by (rule-id, line) and ordered by (line, column) ascending. -/
def fileEntry (fs : List Finding) : List Finding :=
  sortBy posLe (dedupFindings fs)

/-- Modelled from the spec: the Aggregator accepting one completed
file's Finding stream (§4.4) — the file is recorded even when the
stream is empty, and the severity counts are bumped incrementally. -/
def addFile (st : AggState) (path : String) (fs : List Finding) : AggState :=
  ⟨st.perFile ++ [(path, fileEntry fs)], addCounts st.counts (fileEntry fs)⟩

/-- Modelled from the spec: the ScanSummary structure (§3) — the per-file
ordered Finding sequences and the counts-by-severity mapping. -/
structure ScanSummary where
  perFile : List (String × List Finding)
  countsBySeverity : SevCounts
deriving DecidableEq, Repr

/-- Modelled from the spec: the summary is produced on demand from the
Aggregator's current state (§4.4). -/
def summaryOf (st : AggState) : ScanSummary := ⟨st.perFile, st.counts⟩

/-- One file through the whole pipeline: bytes → Scanner → Matcher →
Aggregator (§2). -/
def scanFile (reg : Registry) (st : AggState) (file : String × String) : AggState :=
  addFile st file.1 (matchFile reg file.1 (tokenize file.2))

/-- The pipeline over a list of (path, contents) files. -/
def scanFiles (reg : Registry) (files : List (String × String)) : AggState :=
  files.foldl (scanFile reg) initState

/-- The ScanSummary of a complete scan. -/
def scanSummary (reg : Registry) (files : List (String × String)) : ScanSummary :=
  summaryOf (scanFiles reg files)

/-- Count of Findings of one severity in a list. -/
def countSev (s : Severity) (fs : List Finding) : Nat :=
  (fs.filter fun f => f.severity == s).length

/-- All Findings currently held by an Aggregator state. -/
def allFindings (st : AggState) : List Finding :=
  (st.perFile.map Prod.snd).flatten

/-- `insertBy` permutes its input with the new element in front. -/
theorem insertBy_perm (le : α → α → Bool) (a : α) (l : List α) :
    List.Perm (insertBy le a l) (a :: l) := by
  induction l with
  | nil => exact List.Perm.refl _
  | cons b l ih =>
    simp only [insertBy]
    split
    · exact List.Perm.refl _
    · exact List.Perm.trans (List.Perm.cons b ih) (List.Perm.swap a b l)

/-- `sortBy` permutes its input. -/
theorem sortBy_perm (le : α → α → Bool) (l : List α) :
    List.Perm (sortBy le l) l := by
  induction l with
  | nil => exact List.Perm.refl _
  | cons a l ih =>
    exact List.Perm.trans (insertBy_perm le a (sortBy le l)) (List.Perm.cons a ih)

/-- Membership in an `insertBy` result. -/
theorem mem_insertBy {le : α → α → Bool} {a x : α} {l : List α} :
    x ∈ insertBy le a l ↔ x = a ∨ x ∈ l := by
  have h := (insertBy_perm le a l).mem_iff (a := x)
  simpa using h

/-- Inserting into a list sorted by a total transitive boolean relation
keeps it sorted. -/
theorem pairwise_insertBy {le : α → α → Bool}
    (htot : ∀ a b, le a b = true ∨ le b a = true)
    (htr : ∀ a b c, le a b = true → le b c = true → le a c = true)
    {a : α} {l : List α} (h : List.Pairwise (fun x y => le x y = true) l) :
    List.Pairwise (fun x y => le x y = true) (insertBy le a l) := by
  induction l with
  | nil => simp [insertBy]
  | cons b l ih =>
    rcases List.pairwise_cons.mp h with ⟨hb, hl⟩
    simp only [insertBy]
    split
    · next h1 =>
      refine List.pairwise_cons.mpr ⟨?_, h⟩
      intro x hx
      rcases List.mem_cons.mp hx with rfl | hx
      · exact h1
      · exact htr a b x h1 (hb x hx)
    · next h1 =>
      have hba : le b a = true := (htot a b).resolve_left h1
      refine List.pairwise_cons.mpr ⟨?_, ih hl⟩
      intro x hx
      rcases mem_insertBy.mp hx with rfl | hx
      · exact hba
      · exact hb x hx

/-- `sortBy` with a total transitive boolean relation sorts. -/
theorem pairwise_sortBy {le : α → α → Bool}
    (htot : ∀ a b, le a b = true ∨ le b a = true)
    (htr : ∀ a b c, le a b = true → le b c = true → le a c = true)
    (l : List α) :
    List.Pairwise (fun x y => le x y = true) (sortBy le l) := by
  induction l with
  | nil => simp [sortBy]
  | cons a l ih => exact pairwise_insertBy htot htr ih

/-- `posLe` unfolded to its intended (line, column) lexicographic order. -/
theorem posLe_iff {f g : Finding} :
    posLe f g = true ↔ f.line < g.line ∨ (f.line = g.line ∧ f.column ≤ g.column) := by
  unfold posLe
  split
  · next h => simp only [decide_eq_true_eq]; omega
  · next h => simp only [decide_eq_true_eq]; omega

/-- `posLe` is total. -/
theorem posLe_total (f g : Finding) : posLe f g = true ∨ posLe g f = true := by
  rw [posLe_iff, posLe_iff]; omega

/-- `posLe` is transitive. -/
theorem posLe_trans (f g h : Finding) :
    posLe f g = true → posLe g h = true → posLe f h = true := by
  rw [posLe_iff, posLe_iff, posLe_iff]; omega

/-- `ruleLe` is total. -/
theorem ruleLe_total (r s : Rule) : ruleLe r s = true ∨ ruleLe s r = true := by
  unfold ruleLe
  rcases Nat.le_total r.id s.id with h | h
  · exact Or.inl (decide_eq_true h)
  · exact Or.inr (decide_eq_true h)

/-- `ruleLe` is transitive. -/
theorem ruleLe_trans (r s t : Rule) :
    ruleLe r s = true → ruleLe s t = true → ruleLe r t = true := by
  unfold ruleLe
  simp only [decide_eq_true_eq]
  omega

/-- Every output of `dedupAux` comes from the input, with its key not
among the already-seen keys. -/
theorem mem_dedupAux {seen : List (Nat × Nat)} {l : List Finding} {x : Finding}
    (hx : x ∈ dedupAux seen l) : x ∈ l ∧ dedupKey x ∉ seen := by
  induction l generalizing seen with
  | nil => simp [dedupAux] at hx
  | cons f fs ih =>
    simp only [dedupAux] at hx
    split at hx
    · rcases ih hx with ⟨h1, h2⟩
      exact ⟨List.mem_cons_of_mem f h1, h2⟩
    · next hf =>
      rcases List.mem_cons.mp hx with rfl | hx
      · exact ⟨List.mem_cons_self x fs, hf⟩
      · rcases ih hx with ⟨h1, h2⟩
        refine ⟨List.mem_cons_of_mem f h1, ?_⟩
        intro hc
        exact h2 (List.mem_cons_of_mem _ hc)

/-- `dedupAux` leaves no two Findings sharing a (rule-id, line) key. -/
theorem pairwise_dedupAux (seen : List (Nat × Nat)) (l : List Finding) :
    List.Pairwise (fun f g => dedupKey f ≠ dedupKey g) (dedupAux seen l) := by
  induction l generalizing seen with
  | nil => simp [dedupAux]
  | cons f fs ih =>
    simp only [dedupAux]
    split
    · exact ih seen
    · refine List.pairwise_cons.mpr ⟨?_, ih _⟩
      intro g hg heq
      have h2 := (mem_dedupAux hg).2
      exact h2 (heq ▸ List.mem_cons_self _ _)

/-- The deduplicated stream has pairwise distinct (rule-id, line) keys. -/
theorem pairwise_dedupFindings (l : List Finding) :
    List.Pairwise (fun f g => dedupKey f ≠ dedupKey g) (dedupFindings l) :=
  pairwise_dedupAux [] l

/-- A file entry is sorted by position. -/
theorem fileEntry_sorted (fs : List Finding) :
    List.Pairwise (fun f g => posLe f g = true) (fileEntry fs) :=
  pairwise_sortBy posLe_total posLe_trans _

/-- A file entry has pairwise distinct (rule-id, line) keys. -/
theorem fileEntry_key_distinct (fs : List Finding) :
    List.Pairwise (fun f g => dedupKey f ≠ dedupKey g) (fileEntry fs) := by
  have hsym : ∀ {f g : Finding}, dedupKey f ≠ dedupKey g → dedupKey g ≠ dedupKey f :=
    fun h he => h he.symm
  exact ((sortBy_perm posLe (dedupFindings fs)).pairwise_iff hsym).mpr
    (pairwise_dedupFindings fs)

/-- The per-file map of a pipeline run: one entry per scanned file, in
submission order, holding that file's deduplicated sorted Findings. -/
theorem foldl_scanFile_perFile (reg : Registry) (l : List (String × String))
    (st : AggState) :
    (List.foldl (scanFile reg) st l).perFile
      = st.perFile
        ++ l.map fun fl => (fl.1, fileEntry (matchFile reg fl.1 (tokenize fl.2))) := by
  induction l generalizing st with
  | nil => simp
  | cons f l ih =>
    simp [List.foldl_cons, ih, scanFile, addFile, List.append_assoc]

/-- Bumping one severity adjusts exactly that severity's count. -/
theorem bump_get (c : SevCounts) (sv s : Severity) :
    (c.bump sv).get s = c.get s + if sv = s then 1 else 0 := by
  cases sv <;> cases s <;> simp [SevCounts.bump, SevCounts.get]

/-- `countSev` on a cons. -/
theorem countSev_cons (s : Severity) (f : Finding) (fs : List Finding) :
    countSev s (f :: fs) = (if f.severity = s then 1 else 0) + countSev s fs := by
  simp only [countSev, List.filter_cons]
  by_cases h : f.severity = s
  · simp [beq_iff_eq, h]
    omega
  · simp [beq_iff_eq, h]

/-- `countSev` distributes over append. -/
theorem countSev_append (s : Severity) (l1 l2 : List Finding) :
    countSev s (l1 ++ l2) = countSev s l1 + countSev s l2 := by
  simp [countSev, List.filter_append]

/-- `addCounts` adds exactly the per-severity count of the folded list. -/
theorem addCounts_get (c : SevCounts) (fs : List Finding) (s : Severity) :
    (addCounts c fs).get s = c.get s + countSev s fs := by
  induction fs generalizing c with
  | nil => simp [addCounts, countSev]
  | cons f fs ih =>
    simp only [addCounts, List.foldl_cons] at *
    rw [ih, bump_get, countSev_cons]
    omega

/-- The running counts of a pipeline run add the per-severity counts of
every stored entry. -/
theorem foldl_scanFile_counts (reg : Registry) (l : List (String × String))
    (st : AggState) (s : Severity) :
    (List.foldl (scanFile reg) st l).counts.get s
      = st.counts.get s
        + countSev s ((l.map fun fl => fileEntry (matchFile reg fl.1 (tokenize fl.2))).flatten) := by
  induction l generalizing st with
  | nil => simp [countSev]
  | cons f l ih =>
    simp only [List.foldl_cons, List.map_cons, List.flatten_cons]
    rw [ih, countSev_append]
    simp only [scanFile, addFile]
    rw [addCounts_get]
    omega

/-- Counts invariant: at every reachable Aggregator state, the stored
counts equal the recount of the stored Findings. -/
theorem counts_invariant (reg : Registry) (files : List (String × String)) (s : Severity) :
    (scanFiles reg files).counts.get s = countSev s (allFindings (scanFiles reg files)) := by
  unfold scanFiles allFindings
  rw [foldl_scanFile_counts, foldl_scanFile_perFile]
  have h0 : initState.counts.get s = 0 := by cases s <;> rfl
  rw [h0, Nat.zero_add]
  simp only [initState, List.nil_append, List.map_map]
  rfl

/-- Any rule that matches a token yields its own Finding in the
Matcher's output for that token. -/
theorem exists_finding_of_match (reg : Registry) (path : String) (t : Token)
    (r : Rule) (hr : r ∈ reg.rules) (hm : ruleMatches r t = true) :
    ∃ f ∈ matchToken reg path t,
      f.ruleId = r.id ∧ f.severity = r.severity ∧ f.matchedText = t.text ∧
      f.line = t.line ∧ f.column = t.column := by
  have h1 : r ∈ reg.rules.filter fun r => ruleMatches r t :=
    List.mem_filter.mpr ⟨hr, hm⟩
  have h2 : r ∈ sortBy ruleLe (reg.rules.filter fun r => ruleMatches r t) :=
    (sortBy_perm _ _).mem_iff.mpr h1
  exact ⟨⟨r.id, path, t.line, t.column, t.text, r.severity⟩,
    List.mem_map_of_mem _ h2, rfl, rfl, rfl, rfl, rfl⟩

/-- Every entry of a completed summary's per-file map is the file entry
computed for one of the scanned files. -/
theorem mem_summary_perFile {reg : Registry} {files : List (String × String)}
    {path : String} {fs : List Finding}
    (h : (path, fs) ∈ (scanSummary reg files).perFile) :
    ∃ fl ∈ files, path = fl.1 ∧ fs = fileEntry (matchFile reg fl.1 (tokenize fl.2)) := by
  have hp : (scanSummary reg files).perFile
      = files.map fun fl => (fl.1, fileEntry (matchFile reg fl.1 (tokenize fl.2))) := by
    have h2 := foldl_scanFile_perFile reg files initState
    simpa [scanSummary, summaryOf, scanFiles, initState] using h2
  rw [hp] at h
  rcases List.mem_map.mp h with ⟨fl, hfl, heq⟩
  injection heq with h1 h2
  exact ⟨fl, hfl, h1.symm, h2.symm⟩

/-- `hasDuplicate` detects exactly the presence of two rules sharing
(matched-text, category). -/
theorem hasDuplicate_iff (rules : List Rule) :
    hasDuplicate rules = true ↔
      ¬ List.Pairwise (fun r s : Rule =>
          ¬(r.pattern = s.pattern ∧ r.category = s.category)) rules := by
  induction rules with
  | nil => simp [hasDuplicate]
  | cons r rs ih =>
    simp only [hasDuplicate, Bool.or_eq_true, List.any_eq_true, samePatCat,
      Bool.and_eq_true, beq_iff_eq, List.pairwise_cons, ih, not_and_or,
      not_forall, Classical.not_imp, not_not, exists_prop]
    simp only [not_or, not_not]

/-- Demonstration rules: five rules with pairwise distinct matched
texts under categories of each kind. -/
def ruleAlpha : Rule := ⟨1, "x86-intrinsic", "alpha", .warning, "use NEON"⟩

def ruleBeta : Rule := ⟨2, "x86-intrinsic", "beta", .blocker, "no ARM equivalent"⟩

def ruleGamma : Rule := ⟨3, "deprecated-api", "gamma", .info, "upgrade the library"⟩

def ruleDelta : Rule := ⟨4, "inline-asm", "delta", .warning, "rewrite the asm"⟩

def ruleEps : Rule := ⟨5, "deprecated-api", "eps", .blocker, "replace the call"⟩

/-- A second rule on the matched text "alpha" under a different
category (legal per §4.2). -/
def ruleAlphaCat2 : Rule := ⟨7, "deprecated-api", "alpha", .info, "other category"⟩

/-- A rule colliding with `ruleAlpha` on both matched text and category
(rejected per §4.2). -/
def ruleAlphaDup : Rule := ⟨9, "x86-intrinsic", "alpha", .info, "duplicate pair"⟩

/-- Demonstration registry with the five distinct rules. -/
def regFive : Registry := ⟨[ruleAlpha, ruleBeta, ruleGamma, ruleDelta, ruleEps]⟩

/-- Registry in which two rules share matched text across categories. -/
def regTie : Registry := ⟨[ruleAlphaCat2, ruleAlpha]⟩

/-- Two demonstration files: one with zero matches, one whose five
identifiers match the five distinct rules. -/
def demoFiles : List (String × String) :=
  [("clean.c", "int x;"), ("hot.c", "alpha beta gamma delta eps")]

/-- An identifier token for the text "alpha". -/
def tokAlpha : Token := ⟨.identifier, "alpha", 3, 7⟩

/-- The aggregated entry the pipeline produces for the matching demo file. -/
def hotEntry : List Finding :=
  [⟨1, "hot.c", 1, 1, "alpha", .warning⟩,
   ⟨2, "hot.c", 1, 7, "beta", .blocker⟩,
   ⟨3, "hot.c", 1, 12, "gamma", .info⟩,
   ⟨4, "hot.c", 1, 18, "delta", .warning⟩,
   ⟨5, "hot.c", 1, 24, "eps", .blocker⟩]

end Scan

open Grav Scan

/-- C1: In the demonstration `main` of graviton_problematic.c the
functions are invoked with NULL buffers and zero lengths; under the
total embedding, every execution of `sse2_matrix_multiply`'s loop body
with the NULL `A` that `main` supplies dereferences NULL, and the calls
`sse2_matrix_multiply(NULL, NULL, NULL, 16)`,
`avx2_vector_add(NULL, NULL, NULL, 32)` and
`compress_old_zlib(NULL, 0, NULL, NULL)` all reach the error branch. -/
theorem null_demo_calls_reach_error :
    (∀ (B C : Ptr) (n : Int) (h : Heap) (i : Int), i < n →
      sse2_loop Ptr.null B C n h i = .error .nullDeref)
    ∧ (∀ h : Heap, sse2_matrix_multiply Ptr.null Ptr.null Ptr.null 16 h = .error .nullDeref)
    ∧ (∀ h : Heap, avx2_vector_add Ptr.null Ptr.null Ptr.null 32 h = .error .nullDeref)
    ∧ (∀ h : Heap, compress_old_zlib Ptr.null 0 Ptr.null Ptr.null h = .error .nullDeref) := by
  have hsse : ∀ (B C : Ptr) (n : Int) (h : Heap) (i : Int), i < n →
      sse2_loop Ptr.null B C n h i = .error .nullDeref := by
    intro B C n h i hi
    unfold sse2_loop
    rw [dif_pos hi]
    rfl
  refine ⟨hsse, fun h => hsse _ _ _ _ _ (by norm_num), ?_, fun h => rfl⟩
  intro h
  unfold avx2_vector_add avx2_loop
  rw [dif_pos (by norm_num : (0 : Int) < 32)]
  rfl

/-- Witness for C1 at `main`'s concrete arguments. -/
theorem null_demo_calls_reach_error_witness :
    sse2_loop Ptr.null Ptr.null Ptr.null 16 (fun _ => 0) 0 = .error .nullDeref :=
  null_demo_calls_reach_error.1 Ptr.null Ptr.null 16 (fun _ => 0) 0 (by norm_num)

/-- C2: the scan pipeline (Scanner, Matcher, Aggregator) is a
deterministic function of the files' bytes — two runs on equal input
yield identical ScanSummary content. -/
theorem scan_deterministic (reg : Registry) (files1 files2 : List (String × String))
    (h : files1 = files2) :
    scanSummary reg files1 = scanSummary reg files2 := by
  rw [h]

/-- Witness for C2: re-scanning the unchanged demo files. -/
theorem scan_deterministic_witness :
    scanSummary regFive demoFiles = scanSummary regFive demoFiles :=
  scan_deterministic regFive demoFiles demoFiles rfl

/-- C3: within every file's entry of the ScanSummary, the Finding
sequence is ordered by (line, column) ascending, so every pair of
Findings in sequence order is non-decreasing on (line, column). -/
theorem findings_position_ordered (reg : Registry) (files : List (String × String))
    (path : String) (fs : List Finding)
    (h : (path, fs) ∈ (scanSummary reg files).perFile) :
    List.Pairwise (fun f g : Finding =>
      f.line < g.line ∨ (f.line = g.line ∧ f.column ≤ g.column)) fs := by
  rcases mem_summary_perFile h with ⟨fl, _, _, hfs⟩
  rw [hfs]
  exact (fileEntry_sorted _).imp fun hpq => posLe_iff.mp hpq

/-- Witness for C3 on the demo file with five Findings. -/
theorem findings_position_ordered_witness :
    List.Pairwise (fun f g : Finding =>
      f.line < g.line ∨ (f.line = g.line ∧ f.column ≤ g.column)) hotEntry :=
  findings_position_ordered regFive demoFiles "hot.c" hotEntry (by decide)

/-- C4: the counts-by-severity of a summary equal the recount of the
collected Findings of each severity, at every point of aggregation; in
the concrete two-file scenario (one zero-match file, one file with five
distinct-rule matches) the severity counts sum to five and the
zero-match file is present with an empty Finding sequence. -/
theorem counts_by_severity_correct :
    (∀ (reg : Registry) (files : List (String × String)) (s : Severity),
      (scanSummary reg files).countsBySeverity.get s
        = countSev s (((scanSummary reg files).perFile.map Prod.snd).flatten))
    ∧ ((scanSummary regFive demoFiles).countsBySeverity.info
        + (scanSummary regFive demoFiles).countsBySeverity.warning
        + (scanSummary regFive demoFiles).countsBySeverity.blocker = 5)
    ∧ ("clean.c", ([] : List Finding)) ∈ (scanSummary regFive demoFiles).perFile := by
  exact ⟨fun reg files s => counts_invariant reg files s, by decide, by decide⟩

/-- C5: Registry loading fails with the fatal ConfigError exactly when
two supplied rules share an identical (matched-text, category) pair;
otherwise the rules load unchanged, and every loaded rule that matches
a token produces its own Finding. -/
theorem registry_rejects_duplicates (rules : List Rule) :
    ((loadRegistry rules = .error .duplicateRule) ↔
      ¬ List.Pairwise (fun r s : Rule =>
          ¬(r.pattern = s.pattern ∧ r.category = s.category)) rules)
    ∧ (∀ reg : Registry, loadRegistry rules = .ok reg →
        reg.rules = rules
        ∧ ∀ (path : String) (t : Token) (r : Rule), r ∈ reg.rules →
            ruleMatches r t = true →
            ∃ f ∈ matchToken reg path t, f.ruleId = r.id ∧ f.severity = r.severity) := by
  constructor
  · unfold loadRegistry
    split
    · next hd => simpa using (hasDuplicate_iff rules).mp hd
    · next hd =>
      have hp : List.Pairwise (fun r s : Rule =>
          ¬(r.pattern = s.pattern ∧ r.category = s.category)) rules := by
        by_contra hnp
        exact hd ((hasDuplicate_iff rules).mpr hnp)
      constructor
      · intro he
        exact absurd he (by simp)
      · intro hnp
        exact absurd hp hnp
  · intro reg hok
    unfold loadRegistry at hok
    split at hok
    · exact absurd hok (by simp)
    · injection hok with h
      subst h
      refine ⟨rfl, fun path t r hr hm => ?_⟩
      obtain ⟨f, hf, h1, h2, _⟩ := exists_finding_of_match _ path t r hr hm
      exact ⟨f, hf, h1, h2⟩

/-- Witness for C5: a concrete duplicated (matched-text, category) pair
is rejected at load time. -/
theorem registry_rejects_duplicates_witness :
    loadRegistry [ruleAlpha, ruleAlphaDup] = .error .duplicateRule :=
  (registry_rejects_duplicates [ruleAlpha, ruleAlphaDup]).1.mpr (by decide)

/-- C6: the Aggregator deduplicates within a file — no file's entry in
the summary contains two Findings sharing both rule-id and line. -/
theorem findings_deduplicated (reg : Registry) (files : List (String × String))
    (path : String) (fs : List Finding)
    (h : (path, fs) ∈ (scanSummary reg files).perFile) :
    List.Pairwise (fun f g : Finding => ¬(f.ruleId = g.ruleId ∧ f.line = g.line)) fs := by
  rcases mem_summary_perFile h with ⟨fl, _, _, hfs⟩
  rw [hfs]
  refine (fileEntry_key_distinct _).imp fun hne hand => ?_
  exact hne (by simp [dedupKey, hand.1, hand.2])

/-- Witness for C6 on the demo file with five Findings. -/
theorem findings_deduplicated_witness :
    List.Pairwise (fun f g : Finding => ¬(f.ruleId = g.ruleId ∧ f.line = g.line)) hotEntry :=
  findings_deduplicated regFive demoFiles "hot.c" hotEntry (by decide)

/-- C7: the ScanSummary is a pure function of the Findings collected so
far — the mid-run Aggregator state after the already-collected files
equals a complete scan of exactly those files, so requesting the
summary early yields a valid partial summary (its counts invariant
intact) without error. -/
theorem partial_summary_valid (reg : Registry) (done rest : List (String × String)) :
    scanFiles reg (done ++ rest) = List.foldl (scanFile reg) (scanFiles reg done) rest
    ∧ summaryOf (scanFiles reg done) = scanSummary reg done
    ∧ (∀ s : Severity, (scanSummary reg done).countsBySeverity.get s
        = countSev s (((scanSummary reg done).perFile.map Prod.snd).flatten)) := by
  refine ⟨?_, rfl, fun s => counts_invariant reg done s⟩
  simp [scanFiles, List.foldl_append]

/-- C8: a token matched by several rules yields one Finding per
matching rule, ordered by rule-id ascending, each carrying the token's
source location and referencing a rule present in the Registry. -/
theorem matcher_one_finding_per_rule (reg : Registry) (path : String) (t : Token) :
    List.Pairwise (fun f g : Finding => f.ruleId ≤ g.ruleId) (matchToken reg path t)
    ∧ (matchToken reg path t).length
        = (reg.rules.filter fun r => ruleMatches r t).length
    ∧ (∀ r ∈ reg.rules, ruleMatches r t = true →
        ∃ f ∈ matchToken reg path t, f.ruleId = r.id ∧ f.severity = r.severity)
    ∧ (∀ f ∈ matchToken reg path t,
        f.line = t.line ∧ f.column = t.column ∧ f.filePath = path
        ∧ ∃ r ∈ reg.rules, r.id = f.ruleId ∧ ruleMatches r t = true) := by
  refine ⟨?_, ?_, ?_, ?_⟩
  · unfold matchToken
    rw [List.pairwise_map]
    exact (pairwise_sortBy ruleLe_total ruleLe_trans _).imp
      fun hpq => by simpa [ruleLe, decide_eq_true_eq] using hpq
  · unfold matchToken
    rw [List.length_map]
    exact (sortBy_perm _ _).length_eq
  · intro r hr hm
    obtain ⟨f, hf, h1, h2, _⟩ := exists_finding_of_match reg path t r hr hm
    exact ⟨f, hf, h1, h2⟩
  · intro f hf
    unfold matchToken at hf
    rcases List.mem_map.mp hf with ⟨r, hrs, rfl⟩
    have hr : r ∈ reg.rules.filter fun r => ruleMatches r t :=
      (sortBy_perm _ _).mem_iff.mp hrs
    rcases List.mem_filter.mp hr with ⟨hmem, hmt⟩
    exact ⟨rfl, rfl, rfl, r, hmem, rfl, hmt⟩

/-- Witness for C8: in a registry where two rules share the matched
text "alpha" across categories, the rule `ruleAlpha` still produces its
own Finding on the "alpha" token. -/
theorem matcher_one_finding_per_rule_witness :
    ∃ f ∈ matchToken regTie "demo.c" tokAlpha,
      f.ruleId = ruleAlpha.id ∧ f.severity = ruleAlpha.severity :=
  (matcher_one_finding_per_rule regTie "demo.c" tokAlpha).2.2.1 ruleAlpha
    (by decide) (by decide)

/-- C9: `get_cycles_x86` (graviton_problematic.c), `rdtsc` and
`read_pmc` (x86_specific.c) combine the 32-bit register halves
identically — each returns `((uint64_t)hi << 32) | lo`, which equals
`hi * 2^32 + lo` on the reduced halves. -/
theorem cycle_counters_combine_identically (lo hi : Nat) :
    get_cycles_x86 lo hi = rdtsc lo hi
    ∧ (∀ counter : Nat, read_pmc counter lo hi = get_cycles_x86 lo hi)
    ∧ get_cycles_x86 lo hi = (hi % 2 ^ 32) * 2 ^ 32 + lo % 2 ^ 32 := by
  refine ⟨rfl, fun _ => rfl, ?_⟩
  unfold get_cycles_x86
  rw [Nat.shiftLeft_eq, Nat.mul_comm,
    ← Nat.mul_add_lt_is_or (Nat.mod_lt lo (by norm_num)) _, Nat.mul_comm]

/-- C10: `write_callback` returns the product `size * nmemb` reduced
modulo `2^64` (the width of `size_t`), independent of the `contents`
and `userp` pointer arguments, which it never inspects. -/
theorem write_callback_is_product_mod (c c' u u' : Ptr) (size nmemb : Nat) :
    write_callback c size nmemb u = size * nmemb % 2 ^ 64
    ∧ write_callback c size nmemb u = write_callback c' size nmemb u' :=
  ⟨rfl, rfl⟩
